import Mathlib

/-!
Shallow embedding of the disk-usage cache engine of `disk_utility`
(main process code: `executeDuWithProgress`, `getAllDirectorySizes`,
`isDuCacheValid`, `invalidateDuCache`, `normalizePath`, `findCachedRoot`,
`getDirectoryContents`, and the `delete-file` IPC handler).

JavaScript strings are modelled as `List Char`; JS `Map` objects as
association lists with insertion-order `set` semantics.  JS numbers that
the code only ever uses as integers are modelled as `Int`; the one place
a non-number can flow in (`parseInt` returning `NaN`) is modelled as
`Option Int`, `none` standing for `NaN`.  Wall-clock instants
(`Date.now()`) are an explicit `now : Int` parameter in milliseconds.
-/

abbrev JStr := List Char

def jstr (s : String) : JStr := s.data

/-- JS `s.startsWith(p)`: `jsStartsWith s p = true` iff `p` is a prefix of `s`. -/
def jsStartsWith : JStr → JStr → Bool
  | _, [] => true
  | [], _ :: _ => false
  | a :: s, b :: p => decide (a = b) && jsStartsWith s p

/-- The whitespace characters relevant to JS `String.prototype.trim`
(space, tab, newline, carriage return, form feed, vertical tab). -/
def isJsSpace (c : Char) : Bool :=
  decide (c = ' ') || decide (c = '\t') || decide (c = '\n') ||
  decide (c = '\r') || decide (c = '\x0c') || decide (c = '\x0b')

/-- JS `s.trim()`. -/
def jsTrim (s : JStr) : JStr :=
  ((s.dropWhile isJsSpace).reverse.dropWhile isJsSpace).reverse

/-- JS `s.split(sep)` for a one-character separator: splits at every
occurrence, keeping empty segments; never returns an empty list. -/
def splitChar (c : Char) : JStr → List JStr
  | [] => [[]]
  | x :: xs =>
      if x = c then [] :: splitChar c xs
      else
        match splitChar c xs with
        | [] => [[x]]
        | h :: t => (x :: h) :: t

/-- Value of a nonempty decimal-digit string. -/
def digitsVal (l : JStr) : Option Nat :=
  let d := l.takeWhile Char.isDigit
  if d.isEmpty then none
  else some (d.foldl (fun a c => a * 10 + (c.toNat - 48)) 0)

/-- JS `parseInt(s)` (radix 10, as `du` output uses): skip leading
whitespace, optional sign, then the longest digit run; `none` models the
`NaN` result when no digit is found. -/
def parseIntJS (s : JStr) : Option Int :=
  match s.dropWhile isJsSpace with
  | '-' :: rest => (digitsVal rest).map (fun n => -(n : Int))
  | '+' :: rest => (digitsVal rest).map (fun n => (n : Int))
  | rest => (digitsVal rest).map (fun n => (n : Int))

/-! JS `Map` with `Option Int` values (`none` = `NaN`), insertion ordered. -/

abbrev SizeMap := List (JStr × Option Int)

/-- JS `map.set(k, v)`: overwrite in place if the key exists, else append. -/
def mapSet (m : SizeMap) (k : JStr) (v : Option Int) : SizeMap :=
  if m.any (fun e => decide (e.1 = k)) then
    m.map (fun e => if e.1 = k then (k, v) else e)
  else m ++ [(k, v)]

/-- JS `map.get(k)`: `none` models `undefined`. -/
def mapGet (m : SizeMap) (k : JStr) : Option (Option Int) :=
  (m.find? (fun e => decide (e.1 = k))).map (·.2)

/-!  ## Cache store

`const duCache = new Map()` maps a raw scanned-root string to
`{ sizeMap, timestamp }`; `const CACHE_EXPIRY = 3600000` (one hour in ms). -/

structure CacheRecord where
  sizeMap : SizeMap
  timestamp : Int
deriving DecidableEq, Repr

abbrev DuCache := List (JStr × CacheRecord)

def CACHE_EXPIRY : Int := 3600000

def cacheGet (c : DuCache) (root : JStr) : Option CacheRecord :=
  (c.find? (fun e => decide (e.1 = root))).map (·.2)

def cacheDelete (c : DuCache) (root : JStr) : DuCache :=
  c.filter (fun e => decide (e.1 ≠ root))

def cacheSet (c : DuCache) (root : JStr) (v : CacheRecord) : DuCache :=
  if c.any (fun e => decide (e.1 = root)) then
    c.map (fun e => if e.1 = root then (root, v) else e)
  else c ++ [(root, v)]

/-- `normalizePath`: `path.resolve(filePath).replace(/\/+$/, '') || '/'`.
`path.resolve` is the identity on the absolute, already-canonical paths
this embedding works with, so only the trailing-slash stripping and the
`'/'` fallback are modelled. -/
def normalizePath (p : JStr) : JStr :=
  let r := (p.reverse.dropWhile (fun c => decide (c = '/'))).reverse
  if r = [] then ['/'] else r

/-- `isDuCacheValid(rootPath)`: returns the boolean and the cache after the
side effect (an expired entry found under `rootPath` is deleted). -/
def isDuCacheValid (now : Int) (c : DuCache) (root : JStr) : Bool × DuCache :=
  match cacheGet c root with
  | none => (false, c)
  | some rec =>
      if now - rec.timestamp < CACHE_EXPIRY then (true, c)
      else (false, cacheDelete c root)

/-- The containment test of `findCachedRoot`:
`normalizedTarget === normalizedRoot ||
 normalizedTarget.startsWith(normalizedRoot + path.sep)`. -/
def matchesRoot (nt nr : JStr) : Bool :=
  decide (nt = nr) || jsStartsWith nt (nr ++ ['/'])

/-- One iteration of the `for (const [cachedRoot, cacheData] of duCache)`
loop of `findCachedRoot`, threading `(bestMatch, bestMatchLength)`. -/
def findStep (now : Int) (nt : JStr) (acc : Option JStr × Nat)
    (e : JStr × CacheRecord) : Option JStr × Nat :=
  if now - e.2.timestamp ≥ CACHE_EXPIRY then acc
  else
    let nr := normalizePath e.1
    if matchesRoot nt nr then
      if nr.length > acc.2 then (some e.1, nr.length) else acc
    else acc

/-- `findCachedRoot(targetPath)`: most specific valid cached root covering
the target. -/
def findCachedRoot (now : Int) (c : DuCache) (targetPath : JStr) : Option JStr :=
  let nt := normalizePath targetPath
  (c.foldl (findStep now nt) (none, 0)).1

/-- The relatedness test of `invalidateDuCache`: target equal to, below, or
above the cached root. -/
def invalidationHits (nt nr : JStr) : Bool :=
  decide (nt = nr) || jsStartsWith nt (nr ++ ['/']) || jsStartsWith nr (nt ++ ['/'])

/-- `invalidateDuCache(targetPath)`: collects the roots to delete, then
deletes each of them from the cache. -/
def invalidateDuCache (c : DuCache) (targetPath : JStr) : DuCache :=
  let nt := normalizePath targetPath
  let toDelete :=
    (c.filter (fun e => invalidationHits nt (normalizePath e.1))).map (·.1)
  toDelete.foldl cacheDelete c

example : normalizePath (jstr "/a/b/") = jstr "/a/b" := by decide
example : normalizePath (jstr "///") = jstr "/" := by decide
example : matchesRoot (jstr "/ab") (jstr "/a") = false := by decide
example : matchesRoot (jstr "/a/b") (jstr "/a") = true := by decide
example : findCachedRoot 0 [(jstr "/a", ⟨[], 0⟩), (jstr "/a/b", ⟨[], 0⟩)]
    (jstr "/a/b/c") = some (jstr "/a/b") := by decide
example : invalidateDuCache
    [(jstr "/a", ⟨[], 0⟩), (jstr "/a/b/c", ⟨[], 0⟩), (jstr "/x", ⟨[], 0⟩)]
    (jstr "/a/b") = [(jstr "/x", ⟨[], 0⟩)] := by decide

/-! ## Basic lemmas about the string primitives -/

lemma jsStartsWith_iff (s p : JStr) : jsStartsWith s p = true ↔ ∃ t, s = p ++ t := by
  induction p generalizing s with
  | nil => cases s <;> simp [jsStartsWith]
  | cons b p ih =>
      cases s with
      | nil => simp [jsStartsWith]
      | cons a s =>
          simp only [jsStartsWith, Bool.and_eq_true, decide_eq_true_eq, ih,
            List.cons_append, List.cons.injEq]
          constructor
          · rintro ⟨hab, t, ht⟩; exact ⟨t, hab, ht⟩
          · rintro ⟨t, hab, ht⟩; exact ⟨hab, t, ht⟩

lemma jsStartsWith_length {s p : JStr} (h : jsStartsWith s p = true) :
    p.length ≤ s.length := by
  obtain ⟨t, rfl⟩ := (jsStartsWith_iff s p).mp h
  simp

lemma normalizePath_ne_nil (p : JStr) : normalizePath p ≠ [] := by
  by_cases h : (p.reverse.dropWhile (fun c => decide (c = '/'))).reverse = []
  · simp [normalizePath, h]
  · simp [normalizePath, h]

lemma matchesRoot_no_strict_desc {nt nr : JStr} (h : matchesRoot nt nr = true) :
    jsStartsWith nr (nt ++ ['/']) = false := by
  by_contra hc
  rw [Bool.not_eq_false] at hc
  have h1 : nt.length + 1 ≤ nr.length := by
    have := jsStartsWith_length hc
    simpa using this
  unfold matchesRoot at h
  rcases (Bool.or_eq_true _ _).mp h with h2 | h2
  · have he : nt = nr := by simpa using h2
    rw [he] at h1
    omega
  · have h3 : nr.length + 1 ≤ nt.length := by
      have := jsStartsWith_length h2
      simpa using this
    omega

/-! ## `findCachedRoot`: loop invariant -/

/-- Invariant of the `(bestMatch, bestMatchLength)` accumulator of
`findCachedRoot` after the entries in `seen` have been visited. -/
def FindInv (now : Int) (nt : JStr) (seen : List (JStr × CacheRecord)) :
    Option JStr × Nat → Prop
  | (none, len) =>
      len = 0 ∧
      ∀ e ∈ seen, now - e.2.timestamp < CACHE_EXPIRY →
        matchesRoot nt (normalizePath e.1) = true → False
  | (some r, len) =>
      (∃ rec, (r, rec) ∈ seen ∧ now - rec.timestamp < CACHE_EXPIRY) ∧
      matchesRoot nt (normalizePath r) = true ∧
      (normalizePath r).length = len ∧
      ∀ e ∈ seen, now - e.2.timestamp < CACHE_EXPIRY →
        matchesRoot nt (normalizePath e.1) = true →
        (normalizePath e.1).length ≤ len

lemma findStep_inv {now : Int} {nt : JStr} {seen : List (JStr × CacheRecord)}
    {acc : Option JStr × Nat} {e : JStr × CacheRecord}
    (h : FindInv now nt seen acc) :
    FindInv now nt (seen ++ [e]) (findStep now nt acc e) := by
  obtain ⟨o, len⟩ := acc
  unfold findStep
  by_cases hexp : now - e.2.timestamp ≥ CACHE_EXPIRY
  · rw [if_pos hexp]
    cases o with
    | none =>
        obtain ⟨h0, hnone⟩ := h
        refine ⟨h0, ?_⟩
        intro e' he' hv hm
        rcases List.mem_append.mp he' with he' | he'
        · exact hnone e' he' hv hm
        · obtain rfl : e' = e := by simpa using he'
          omega
    | some r =>
        obtain ⟨⟨rec, hmem, hval⟩, hm, hlen, hmax⟩ := h
        refine ⟨⟨rec, List.mem_append.mpr (Or.inl hmem), hval⟩, hm, hlen, ?_⟩
        intro e' he' hv hm'
        rcases List.mem_append.mp he' with he' | he'
        · exact hmax e' he' hv hm'
        · obtain rfl : e' = e := by simpa using he'
          omega
  · rw [if_neg hexp]
    have hvalE : now - e.2.timestamp < CACHE_EXPIRY := by omega
    by_cases hm : matchesRoot nt (normalizePath e.1) = true
    · simp only [hm, if_pos]
      cases o with
      | none =>
          obtain ⟨h0, hnone⟩ := h
          have hpos : 0 < (normalizePath e.1).length :=
            List.length_pos.mpr (normalizePath_ne_nil e.1)
          have hgt : (normalizePath e.1).length > len := by omega
          rw [if_pos hgt]
          refine ⟨⟨e.2, List.mem_append.mpr (Or.inr (by simp)), hvalE⟩, hm, rfl, ?_⟩
          intro e' he' hv hm'
          rcases List.mem_append.mp he' with he' | he'
          · exact absurd hm' (by intro hmm; exact hnone e' he' hv hmm)
          · obtain rfl : e' = e := by simpa using he'
            omega
      | some r =>
          obtain ⟨⟨rec, hmem, hval⟩, hmr, hlen, hmax⟩ := h
          by_cases hgt : (normalizePath e.1).length > len
          · rw [if_pos hgt]
            refine ⟨⟨e.2, List.mem_append.mpr (Or.inr (by simp)), hvalE⟩, hm, rfl, ?_⟩
            intro e' he' hv hm'
            rcases List.mem_append.mp he' with he' | he'
            · have := hmax e' he' hv hm'
              omega
            · obtain rfl : e' = e := by simpa using he'
              omega
          · rw [if_neg hgt]
            refine ⟨⟨rec, List.mem_append.mpr (Or.inl hmem), hval⟩, hmr, hlen, ?_⟩
            intro e' he' hv hm'
            rcases List.mem_append.mp he' with he' | he'
            · exact hmax e' he' hv hm'
            · obtain rfl : e' = e := by simpa using he'
              omega
    · simp only [if_neg hm]
      cases o with
      | none =>
          obtain ⟨h0, hnone⟩ := h
          refine ⟨h0, ?_⟩
          intro e' he' hv hm'
          rcases List.mem_append.mp he' with he' | he'
          · exact hnone e' he' hv hm'
          · obtain rfl : e' = e := by simpa using he'
            exact hm hm'
      | some r =>
          obtain ⟨⟨rec, hmem, hval⟩, hmr, hlen, hmax⟩ := h
          refine ⟨⟨rec, List.mem_append.mpr (Or.inl hmem), hval⟩, hmr, hlen, ?_⟩
          intro e' he' hv hm'
          rcases List.mem_append.mp he' with he' | he'
          · exact hmax e' he' hv hm'
          · obtain rfl : e' = e := by simpa using he'
            exact absurd hm' hm

lemma findFold_inv (now : Int) (nt : JStr) :
    ∀ (l seen : List (JStr × CacheRecord)) (acc : Option JStr × Nat),
      FindInv now nt seen acc →
      FindInv now nt (seen ++ l) (l.foldl (findStep now nt) acc) := by
  intro l
  induction l with
  | nil => intro seen acc h; simpa using h
  | cons e l ih =>
      intro seen acc h
      have h2 := ih (seen ++ [e]) (findStep now nt acc e) (findStep_inv h)
      simpa [List.append_assoc] using h2

lemma findCachedRoot_inv (now : Int) (c : DuCache) (p : JStr) :
    FindInv now (normalizePath p) c
      (c.foldl (findStep now (normalizePath p)) (none, 0)) := by
  have h0 : FindInv now (normalizePath p) [] ((none : Option JStr), 0) := by
    exact ⟨rfl, by intro e he; cases he⟩
  simpa using findFold_inv now (normalizePath p) c [] (none, 0) h0

/-- Soundness of `findCachedRoot`: a returned root names a valid record of
the cache, covers the query, and has maximal normalized length among the
valid covering records. -/
lemma findCachedRoot_sound {now : Int} {c : DuCache} {p r : JStr}
    (hfind : findCachedRoot now c p = some r) :
    (∃ rec, (r, rec) ∈ c ∧ now - rec.timestamp < CACHE_EXPIRY) ∧
    matchesRoot (normalizePath p) (normalizePath r) = true ∧
    (∀ e ∈ c, now - e.2.timestamp < CACHE_EXPIRY →
       matchesRoot (normalizePath p) (normalizePath e.1) = true →
       (normalizePath e.1).length ≤ (normalizePath r).length) := by
  have hinv := findCachedRoot_inv now c p
  have hfind' :
      (c.foldl (findStep now (normalizePath p)) ((none : Option JStr), 0)).1
        = some r := hfind
  generalize hE :
      c.foldl (findStep now (normalizePath p)) ((none : Option JStr), 0) = res
        at hfind' hinv
  obtain ⟨o, len⟩ := res
  cases o with
  | none => exact absurd hfind' (by simp)
  | some r' =>
      obtain rfl : r' = r := by simpa using hfind'
      obtain ⟨⟨rec, hmem, hval⟩, hm, hlen, hmax⟩ := hinv
      refine ⟨⟨rec, hmem, hval⟩, hm, ?_⟩
      intro e he hv hm'
      have := hmax e he hv hm'
      omega

/-- C1: `findCachedRoot(p)` returns a valid (non-expired) cache record whose
normalized root is an ancestor-or-self of `normalize(p)` (ancestry decided by
comparison against the normalized root followed by the path separator), with
the longest normalized root string among all such valid records; it never
returns a record whose root is a strict descendant of `p`.  In particular,
for a cache holding exactly two valid records with roots `R1` and `R2` where
`R1` is an ancestor of `R2`, `findCachedRoot(p)` for any `p` under `R2`
returns `R2`, never `R1`. -/
theorem findCachedRoot_most_specific :
    (∀ (now : Int) (c : DuCache) (p r : JStr),
       findCachedRoot now c p = some r →
       (∃ rec, (r, rec) ∈ c ∧ now - rec.timestamp < CACHE_EXPIRY) ∧
       matchesRoot (normalizePath p) (normalizePath r) = true ∧
       jsStartsWith (normalizePath r) (normalizePath p ++ ['/']) = false ∧
       (∀ e ∈ c, now - e.2.timestamp < CACHE_EXPIRY →
          matchesRoot (normalizePath p) (normalizePath e.1) = true →
          (normalizePath e.1).length ≤ (normalizePath r).length)) ∧
    (∀ (now : Int) (R1 R2 p : JStr) (rec1 rec2 : CacheRecord),
       now - rec1.timestamp < CACHE_EXPIRY →
       now - rec2.timestamp < CACHE_EXPIRY →
       jsStartsWith (normalizePath R2) (normalizePath R1 ++ ['/']) = true →
       matchesRoot (normalizePath p) (normalizePath R2) = true →
       findCachedRoot now [(R1, rec1), (R2, rec2)] p = some R2) := by
  constructor
  · intro now c p r hfind
    obtain ⟨hex, hm, hmax⟩ := findCachedRoot_sound hfind
    exact ⟨hex, hm, matchesRoot_no_strict_desc hm, hmax⟩
  · intro now R1 R2 p rec1 rec2 h1 h2 hdesc hmatch
    have hinv := findCachedRoot_inv now [(R1, rec1), (R2, rec2)] p
    show ([(R1, rec1), (R2, rec2)].foldl (findStep now (normalizePath p))
        ((none : Option JStr), 0)).1 = some R2
    generalize hE :
        [(R1, rec1), (R2, rec2)].foldl (findStep now (normalizePath p))
          ((none : Option JStr), 0) = res at hinv ⊢
    obtain ⟨o, len⟩ := res
    have hlen21 : (normalizePath R1).length + 1 ≤ (normalizePath R2).length := by
      have := jsStartsWith_length hdesc
      simpa using this
    cases o with
    | none =>
        obtain ⟨h0, hnone⟩ := hinv
        exact absurd hmatch
          (by intro hmm; exact hnone (R2, rec2) (by simp) h2 hmm)
    | some r =>
        obtain ⟨⟨rec, hmem, hval⟩, hm, hlenr, hmax⟩ := hinv
        have hR2 : (normalizePath R2).length ≤ len :=
          hmax (R2, rec2) (by simp) h2 hmatch
        rcases List.mem_cons.mp hmem with hmem1 | hmem1
        · obtain ⟨rfl, rfl⟩ : r = R1 ∧ rec = rec1 := by simpa using hmem1
          rw [← hlenr] at hR2
          omega
        · rcases List.mem_cons.mp hmem1 with hmem2 | hmem2
          · obtain ⟨rfl, rfl⟩ : r = R2 ∧ rec = rec2 := by simpa using hmem2
            rfl
          · cases hmem2

/-- Witness for C1: with `/a` and `/a/b` both cached and fresh, a query
under `/a/b` selects `/a/b`, not `/a`. -/
theorem findCachedRoot_most_specific_witness :
    findCachedRoot 0 [(jstr "/a", ⟨[], 0⟩), (jstr "/a/b", ⟨[], 0⟩)]
      (jstr "/a/b/c") = some (jstr "/a/b") :=
  findCachedRoot_most_specific.2 0 (jstr "/a") (jstr "/a/b") (jstr "/a/b/c")
    ⟨[], 0⟩ ⟨[], 0⟩ (by decide) (by decide) (by decide) (by decide)

/-! ## `invalidateDuCache` as a filter -/

lemma foldl_cacheDelete_eq_filter (ks : List JStr) :
    ∀ c : DuCache, ks.foldl cacheDelete c
      = c.filter (fun e => decide (e.1 ∉ ks)) := by
  induction ks with
  | nil =>
      intro c
      simp [List.filter_eq_self]
  | cons k ks ih =>
      intro c
      rw [List.foldl_cons, ih]
      unfold cacheDelete
      rw [List.filter_filter]
      refine List.filter_congr ?_
      intro e he
      by_cases h1 : e.1 = k <;> by_cases h2 : e.1 ∈ ks <;>
        simp [h1, h2]

lemma invalidateDuCache_eq_filter (c : DuCache) (t : JStr) :
    invalidateDuCache c t
      = c.filter
          (fun e => !(invalidationHits (normalizePath t) (normalizePath e.1))) := by
  unfold invalidateDuCache
  rw [foldl_cacheDelete_eq_filter]
  refine List.filter_congr ?_
  intro e he
  by_cases hh : invalidationHits (normalizePath t) (normalizePath e.1) = true
  · have hmem : e.1 ∈
        ((c.filter fun e =>
            invalidationHits (normalizePath t) (normalizePath e.1)).map (·.1)) :=
      List.mem_map.mpr ⟨e, List.mem_filter.mpr ⟨he, hh⟩, rfl⟩
    simp [hmem, hh]
  · have hnmem : e.1 ∉
        ((c.filter fun e =>
            invalidationHits (normalizePath t) (normalizePath e.1)).map (·.1)) := by
      intro hmem
      obtain ⟨e', he', hkey⟩ := List.mem_map.mp hmem
      obtain ⟨he'c, hh'⟩ := List.mem_filter.mp he'
      rw [hkey] at hh'
      exact hh hh'
    simp [hnmem, hh]

/-- C2: `invalidateDuCache(t)` removes exactly those records whose normalized
root is equal to, an ancestor of, or a descendant of `normalize(t)`
(relatedness decided with the root-plus-separator comparison); records with
disjoint roots survive unchanged, and the call is a no-op when no record is
related to the target. -/
theorem invalidateDuCache_exact :
    (∀ (c : DuCache) (t : JStr) (e : JStr × CacheRecord),
       e ∈ invalidateDuCache c t ↔
         e ∈ c ∧ invalidationHits (normalizePath t) (normalizePath e.1) = false) ∧
    (∀ (c : DuCache) (t : JStr),
       (∀ e ∈ c, invalidationHits (normalizePath t) (normalizePath e.1) = false) →
       invalidateDuCache c t = c) := by
  constructor
  · intro c t e
    rw [invalidateDuCache_eq_filter]
    simp [List.mem_filter]
  · intro c t h
    rw [invalidateDuCache_eq_filter]
    refine List.filter_eq_self.mpr ?_
    intro e he
    simp [h e he]

/-- Witness for C2: invalidating `/a/b` removes the records rooted at `/a`
(ancestor) and `/a/b/c` (descendant) and keeps the one rooted at `/x`. -/
theorem invalidateDuCache_exact_witness :
    invalidateDuCache [(jstr "/x", ⟨[], 0⟩)] (jstr "/a/b") = [(jstr "/x", ⟨[], 0⟩)] :=
  invalidateDuCache_exact.2 [(jstr "/x", ⟨[], 0⟩)] (jstr "/a/b") (by decide)

lemma cacheGet_delete_self (c : DuCache) (root : JStr) :
    cacheGet (cacheDelete c root) root = none := by
  unfold cacheGet cacheDelete
  have h : (c.filter (fun e => decide (e.1 ≠ root))).find?
      (fun e => decide (e.1 = root)) = none := by
    refine List.find?_eq_none.mpr ?_
    intro x hx
    obtain ⟨hxc, hxne⟩ := List.mem_filter.mp hx
    simp only [decide_eq_true_eq] at hxne ⊢
    exact hxne
  rw [h]
  rfl

/-- C3: a record 3600 seconds old or older is never served: the touch by
`isDuCacheValid` (the `get` path) reports it invalid and evicts it, and
`findCachedRoot` only ever returns roots backed by a non-expired record
(expired ones are skipped). -/
theorem expired_record_never_returned :
    (∀ (now : Int) (c : DuCache) (root : JStr) (rec : CacheRecord),
       cacheGet c root = some rec →
       now - rec.timestamp ≥ CACHE_EXPIRY →
       isDuCacheValid now c root = (false, cacheDelete c root) ∧
       cacheGet (cacheDelete c root) root = none) ∧
    (∀ (now : Int) (c : DuCache) (p r : JStr),
       findCachedRoot now c p = some r →
       ∃ rec, (r, rec) ∈ c ∧ now - rec.timestamp < CACHE_EXPIRY) := by
  constructor
  · intro now c root rec hget hexp
    refine ⟨?_, cacheGet_delete_self c root⟩
    unfold isDuCacheValid
    rw [hget]
    show (if now - rec.timestamp < CACHE_EXPIRY then ((true : Bool), c)
        else (false, cacheDelete c root)) = (false, cacheDelete c root)
    rw [if_neg (not_lt.mpr hexp)]
  · intro now c p r h
    exact (findCachedRoot_sound h).1

/-- Witness for C3: a record written at time 0 and touched at time 3600000
is reported invalid and evicted. -/
theorem expired_record_never_returned_witness :
    isDuCacheValid 3600000 [(jstr "/a", ⟨[], 0⟩)] (jstr "/a")
        = (false, cacheDelete [(jstr "/a", ⟨[], 0⟩)] (jstr "/a")) ∧
      cacheGet (cacheDelete [(jstr "/a", ⟨[], 0⟩)] (jstr "/a")) (jstr "/a")
        = none :=
  expired_record_never_returned.1 3600000 [(jstr "/a", ⟨[], 0⟩)] (jstr "/a")
    ⟨[], 0⟩ (by decide) (by decide)

/-! ## Streaming scan runner (`executeDuWithProgress`)

The `du` process state the `stdout` data handler mutates: the partial-line
`buffer`, the accumulated `sizeMap`, `lineCount` and `currentPath`. -/

structure DuState where
  buffer : JStr
  sizeMap : SizeMap
  lineCount : Nat
  currentPath : JStr
deriving DecidableEq, Repr

def duInitState (rootPath : JStr) : DuState :=
  { buffer := [], sizeMap := [], lineCount := 0, currentPath := rootPath }

/-- The body run for one completed line: skip blank lines, split on tabs,
require at least two fields, `parseInt` the size, multiply by 1024 and store
(`parseInt` yielding `NaN` is stored as `none`). -/
def processLine (st : DuState) (line : JStr) : DuState :=
  if jsTrim line ≠ [] then
    let parts := splitChar '\t' line
    if parts.length ≥ 2 then
      let sizeKB := parseIntJS (parts.getD 0 [])
      let filePath := parts.getD 1 []
      let sizeBytes := sizeKB.map (· * 1024)
      { st with sizeMap := mapSet st.sizeMap filePath sizeBytes,
                currentPath := filePath,
                lineCount := st.lineCount + 1 }
    else st
  else st

/-- The `while ((newlineIndex = buffer.indexOf('\n')) !== -1)` loop: scan the
pending characters, processing each completed line; the characters after the
last newline become the new partial-line buffer. -/
def drainAux (st : DuState) (cur : JStr) : JStr → DuState
  | [] => { st with buffer := cur }
  | c :: rest =>
      if c = '\n' then drainAux (processLine st cur) [] rest
      else drainAux st (cur ++ [c]) rest

/-- The `stdout` `data` handler: append the chunk to the buffer, then drain
completed lines.  (The time-throttled intermediate progress emission carries
no data and is not modelled here.) -/
def duOnData (st : DuState) (chunk : JStr) : DuState :=
  drainAux st [] (st.buffer ++ chunk)

/-- The trailing-buffer flush of the `close` handler: the remaining buffer is
trimmed and, when it still splits into at least two tab-separated fields,
recorded as a final entry. -/
def flushBuffer (st : DuState) : DuState :=
  if jsTrim st.buffer ≠ [] then
    let parts := splitChar '\t' (jsTrim st.buffer)
    if parts.length ≥ 2 then
      { st with sizeMap := mapSet st.sizeMap (parts.getD 1 [])
                  ((parseIntJS (parts.getD 0 [])).map (· * 1024)),
                lineCount := st.lineCount + 1 }
    else st
  else st

inductive ScanErr where
  | processFailed (code : Int)
  | timeout
  | spawnFailed
deriving DecidableEq, Repr

structure ProgressEvent where
  processedFiles : Nat
  currentPath : JStr
  isComplete : Bool
deriving DecidableEq, Repr

/-- The `close` handler: flush the remaining buffer; on exit code 0 emit the
final `isComplete` progress event and resolve with the map, otherwise reject
with the process-failed error carrying the exit code. -/
def duOnClose (rootPath : JStr) (st : DuState) (code : Int) :
    List ProgressEvent × Except ScanErr SizeMap :=
  let st' := flushBuffer st
  if code = 0 then
    ([⟨st'.lineCount, rootPath, true⟩], Except.ok st'.sizeMap)
  else ([], Except.error (ScanErr.processFailed code))

/-! ## Lemmas about the parsing primitives -/

lemma splitChar_of_not_mem {c : Char} {s : JStr} (h : c ∉ s) :
    splitChar c s = [s] := by
  induction s with
  | nil => rfl
  | cons x xs ih =>
      have hx : x ≠ c := fun hxc => h (hxc ▸ List.mem_cons_self x xs)
      have hxs : c ∉ xs := fun hc => h (List.mem_cons_of_mem x hc)
      unfold splitChar
      rw [if_neg hx, ih hxs]

lemma splitChar_pair {c : Char} {s p : JStr} (hs : c ∉ s) (hp : c ∉ p) :
    splitChar c (s ++ c :: p) = [s, p] := by
  induction s with
  | nil =>
      have hhead : splitChar c (c :: p) = [] :: splitChar c p := by
        simp [splitChar]
      rw [List.nil_append, hhead, splitChar_of_not_mem hp]
  | cons x xs ih =>
      have hx : x ≠ c := fun hxc => hs (hxc ▸ List.mem_cons_self x xs)
      have hxs : c ∉ xs := fun hc => hs (List.mem_cons_of_mem x hc)
      have hstep : splitChar c (x :: (xs ++ c :: p))
          = match splitChar c (xs ++ c :: p) with
            | [] => [[x]]
            | h :: t => (x :: h) :: t := by
        simp [splitChar, hx]
      rw [List.cons_append, hstep, ih hxs]

lemma jsTrim_eq_nil_iff (l : JStr) :
    jsTrim l = [] ↔ ∀ c ∈ l, isJsSpace c = true := by
  unfold jsTrim
  rw [List.reverse_eq_nil_iff, List.dropWhile_eq_nil_iff]
  constructor
  · intro h c hc
    rcases List.mem_append.mp
        ((List.takeWhile_append_dropWhile (p := isJsSpace) (l := l)) ▸ hc) with
      hc' | hc'
    · exact List.mem_takeWhile_imp hc'
    · exact h c (by simpa using hc')
  · intro h c hc
    have hc' : c ∈ l := List.dropWhile_sublist (p := isJsSpace) |>.subset
        (by simpa using hc)
    exact h c hc'

lemma parseIntJS_not_all_space {s : JStr} {n : Int} (h : parseIntJS s = some n) :
    ¬ ∀ c ∈ s, isJsSpace c = true := by
  intro hall
  have hdrop : s.dropWhile isJsSpace = [] :=
    List.dropWhile_eq_nil_iff.mpr hall
  rw [parseIntJS, hdrop] at h
  simp [digitsVal] at h

lemma mapGet_set_self (m : SizeMap) (k : JStr) (v : Option Int) :
    mapGet (mapSet m k v) k = some v := by
  unfold mapSet mapGet
  by_cases h : m.any (fun e => decide (e.1 = k))
  · rw [if_pos h]
    induction m with
    | nil => simp at h
    | cons e m ih =>
        by_cases he : e.1 = k
        · simp [List.find?, he]
        · have h' : m.any (fun e => decide (e.1 = k)) := by
            rcases List.any_eq_true.mp h with ⟨x, hx, hpx⟩
            rcases List.mem_cons.mp hx with rfl | hx'
            · exact absurd (by simpa using hpx) he
            · exact List.any_eq_true.mpr ⟨x, hx', hpx⟩
          simpa [List.find?, he] using ih h'
  · rw [if_neg h]
    have hnone : m.find? (fun e => decide (e.1 = k)) = none := by
      refine List.find?_eq_none.mpr ?_
      intro x hx
      intro hpx
      exact h (List.any_eq_true.mpr ⟨x, hx, hpx⟩)
    rw [List.find?_append, hnone]
    simp [List.find?]

lemma drainAux_no_newline {l : JStr} (h : '\n' ∉ l) :
    ∀ (st : DuState) (cur : JStr),
      drainAux st cur l = { st with buffer := cur ++ l } := by
  induction l with
  | nil => intro st cur; simp [drainAux]
  | cons c rest ih =>
      intro st cur
      have hc : c ≠ '\n' := fun hcc => h (hcc ▸ List.mem_cons_self c rest)
      have hrest : '\n' ∉ rest := fun hr => h (List.mem_cons_of_mem c hr)
      unfold drainAux
      rw [if_neg hc, ih hrest]
      simp

lemma drainAux_line {l : JStr} (h : '\n' ∉ l) :
    ∀ (st : DuState) (cur : JStr) (rest : JStr),
      drainAux st cur (l ++ '\n' :: rest)
        = drainAux (processLine st (cur ++ l)) [] rest := by
  induction l with
  | nil =>
      intro st cur rest
      simp [drainAux]
  | cons c l ih =>
      intro st cur rest
      have hc : c ≠ '\n' := fun hcc => h (hcc ▸ List.mem_cons_self c l)
      have hl : '\n' ∉ l := fun hr => h (List.mem_cons_of_mem c hr)
      have hstep : drainAux st cur (c :: (l ++ '\n' :: rest))
          = drainAux st (cur ++ [c]) (l ++ '\n' :: rest) := by
        simp [drainAux, hc]
      rw [List.cons_append, hstep, ih hl]
      simp

lemma processLine_buffer (st : DuState) (l : JStr) :
    (processLine st l).buffer = st.buffer := by
  unfold processLine
  split
  · dsimp only
    split <;> rfl
  · rfl

/-- C4 counterexample: the claim says a line whose size field is non-numeric
contributes no entry, but the data handler has no `NaN` check: processing the
chunk `"abc\t/x\n"` stores an entry for `/x` whose value is `NaN`
(modelled `none`). -/
theorem duParse_nonNumeric_counterexample :
    mapGet (duOnData (duInitState (jstr "/r")) (jstr "abc\t/x\n")).sizeMap
      (jstr "/x") = some none := by decide

/-- C4 amended: blank lines and lines with fewer than two tab-separated
fields contribute no entry; a well-formed `<sizeKB>\t<path>` line contributes
`path -> sizeKB * 1024` by exact integer multiplication; but a line with two
fields whose size is non-numeric is NOT skipped: it contributes an entry for
the path whose value is `NaN`.  A chunk holding one newline-terminated line
is processed exactly as that line. -/
theorem duParse_line_spec :
    (∀ (st : DuState) (line : JStr),
       jsTrim line = [] → processLine st line = st) ∧
    (∀ (st : DuState) (line : JStr),
       (splitChar '\t' line).length < 2 → processLine st line = st) ∧
    (∀ (st : DuState) (s p : JStr) (n : Int),
       '\t' ∉ s → '\t' ∉ p → parseIntJS s = some n →
       mapGet (processLine st (s ++ '\t' :: p)).sizeMap p
         = some (some (n * 1024))) ∧
    (∀ (st : DuState) (s p : JStr),
       '\t' ∉ s → '\t' ∉ p → parseIntJS s = none →
       jsTrim (s ++ '\t' :: p) ≠ [] →
       mapGet (processLine st (s ++ '\t' :: p)).sizeMap p = some none) ∧
    (∀ (st : DuState) (line : JStr),
       st.buffer = [] → '\n' ∉ line →
       duOnData st (line ++ ['\n']) = processLine st line) := by
  refine ⟨?_, ?_, ?_, ?_, ?_⟩
  · intro st line h
    unfold processLine
    rw [if_neg (not_not_intro h)]
  · intro st line h
    unfold processLine
    by_cases htrim : jsTrim line = []
    · rw [if_neg (not_not_intro htrim)]
    · rw [if_pos htrim]
      simp only []
      rw [if_neg (by omega)]
  · intro st s p n hs hp hn
    have hline : jsTrim (s ++ '\t' :: p) ≠ [] := by
      intro htrim
      refine parseIntJS_not_all_space hn ?_
      intro ch hch
      exact (jsTrim_eq_nil_iff _).mp htrim ch (List.mem_append_left _ hch)
    have hparts : splitChar '\t' (s ++ '\t' :: p) = [s, p] := splitChar_pair hs hp
    unfold processLine
    rw [if_pos hline]
    simp only [hparts, List.getD_cons_zero, List.getD_cons_succ,
      List.length_cons, List.length_nil, hn, Option.map_some']
    rw [if_pos (by omega)]
    exact mapGet_set_self st.sizeMap p (some (n * 1024))
  · intro st s p hs hp hn hline
    have hparts : splitChar '\t' (s ++ '\t' :: p) = [s, p] := splitChar_pair hs hp
    unfold processLine
    rw [if_pos hline]
    simp only [hparts, List.getD_cons_zero, List.getD_cons_succ,
      List.length_cons, List.length_nil, hn, Option.map_none']
    rw [if_pos (by omega)]
    exact mapGet_set_self st.sizeMap p none
  · intro st line hbuf hnl
    show drainAux st [] (st.buffer ++ (line ++ ['\n'])) = processLine st line
    rw [hbuf, List.nil_append]
    rw [drainAux_line hnl st [] []]
    simp only [List.nil_append]
    show { processLine st line with buffer := [] } = processLine st line
    have hb : (processLine st line).buffer = [] := by
      rw [processLine_buffer]; exact hbuf
    rw [← hb]

/-- Witness for the amended C4: the round-trip line `"1024\t/a/b"` maps
`/a/b` to `1024 * 1024 = 1048576` bytes. -/
theorem duParse_line_spec_witness :
    ('\t' ∉ jstr "1024") ∧ ('\t' ∉ jstr "/a/b") ∧
      parseIntJS (jstr "1024") = some 1024 ∧
      mapGet (processLine (duInitState (jstr "/r"))
          (jstr "1024" ++ '\t' :: jstr "/a/b")).sizeMap (jstr "/a/b")
        = some (some (1024 * 1024)) :=
  ⟨by decide, by decide, by decide,
   duParse_line_spec.2.2.1 (duInitState (jstr "/r")) (jstr "1024") (jstr "/a/b")
     1024 (by decide) (by decide) (by decide)⟩

/-- C5: when the process closes with exit code 0, a well-formed trailing
unterminated line still in the buffer is flushed as a final record, one
final progress event with `isComplete = true` is emitted, and the promise
resolves with the accumulated mapping (which therefore contains the
trailing entry). -/
theorem duOnClose_flushes_trailing :
    ∀ (rootPath : JStr) (st : DuState) (s p : JStr) (n : Int),
      st.buffer = s ++ '\t' :: p →
      '\t' ∉ s → '\t' ∉ p →
      jsTrim st.buffer = st.buffer →
      parseIntJS s = some n →
      duOnClose rootPath st 0
          = ([⟨st.lineCount + 1, rootPath, true⟩],
             Except.ok (mapSet st.sizeMap p (some (n * 1024)))) ∧
        mapGet (mapSet st.sizeMap p (some (n * 1024))) p
          = some (some (n * 1024)) := by
  intro rootPath st s p n hbuf hs hp htrim hn
  have hne : jsTrim st.buffer ≠ [] := by
    rw [htrim, hbuf]; simp
  have hflush : flushBuffer st
      = { st with sizeMap := mapSet st.sizeMap p (some (n * 1024)),
                  lineCount := st.lineCount + 1 } := by
    unfold flushBuffer
    rw [if_pos hne, htrim, hbuf]
    simp only [splitChar_pair hs hp, List.getD_cons_zero, List.getD_cons_succ,
      List.length_cons, List.length_nil, hn, Option.map_some']
    rw [if_pos (by omega)]
  constructor
  · unfold duOnClose
    rw [hflush]
    rfl
  · exact mapGet_set_self st.sizeMap p (some (n * 1024))

/-- Witness for C5: a trailing `"2048\t/a/c"` with no final newline is
flushed into the mapping on close code 0, with the final complete progress
event. -/
theorem duOnClose_flushes_trailing_witness :
    duOnClose (jstr "/r")
        ⟨jstr "2048\t/a/c", [(jstr "/a/b", some 1048576)], 1, jstr "/a/b"⟩ 0
        = ([⟨2, jstr "/r", true⟩],
           Except.ok (mapSet [(jstr "/a/b", some 1048576)] (jstr "/a/c")
             (some (2048 * 1024)))) ∧
      mapGet (mapSet [(jstr "/a/b", some 1048576)] (jstr "/a/c")
          (some (2048 * 1024))) (jstr "/a/c")
        = some (some (2048 * 1024)) :=
  duOnClose_flushes_trailing (jstr "/r")
    ⟨jstr "2048\t/a/c", [(jstr "/a/b", some 1048576)], 1, jstr "/a/b"⟩
    (jstr "2048") (jstr "/a/c") 2048
    (by decide) (by decide) (by decide) (by decide) (by decide)

/-! ## Directory materializer (`getDirectoryContents`) and its collaborators

The filesystem is an oracle: `stat` returns `none` where `fs.stat` throws,
`readdir` returns `none` where `fs.readdir` throws. -/

structure Stats where
  isFile : Bool
  isDirectory : Bool
  size : Int
deriving DecidableEq, Repr

structure FS where
  stat : JStr → Option Stats
  readdir : JStr → Option (List JStr)

inductive EntryType where
  | file
  | directory
deriving DecidableEq, Repr

structure ChildNode where
  name : JStr
  path : JStr
  size : Int
  type : EntryType
deriving DecidableEq, Repr

structure DirNode where
  name : JStr
  path : JStr
  size : Int
  children : List ChildNode
deriving DecidableEq, Repr

/-- `path.join(dirPath, entry)` on an absolute canonical directory and a
plain entry name. -/
def joinPath (d e : JStr) : JStr := d ++ '/' :: e

/-- `path.basename`: the last path segment, after trailing separators. -/
def jsBasename (p : JStr) : JStr :=
  ((p.reverse.dropWhile (fun c => decide (c = '/'))).takeWhile
    (fun c => decide (c ≠ '/'))).reverse

/-- `path.basename(dirPath) || dirPath`. -/
def baseNameOf (p : JStr) : JStr :=
  if jsBasename p = [] then p else jsBasename p

/-- `sizeMap.get(fullPath) || 0`: a missing key (`undefined`), a stored
`NaN`, and a stored `0` are all falsy and yield `0`; any other stored
number is returned as is. -/
def dirSizeLookup (m : SizeMap) (p : JStr) : Int :=
  match mapGet m p with
  | some (some n) => if n = 0 then 0 else n
  | _ => 0

/-- One iteration of the `for (const entry of entries)` loop: skip names
starting with `.`, skip children whose `stat` throws, push file children
with their stat size and directory children with the mapping lookup. -/
def childStep (fs : FS) (m : SizeMap) (dirPath : JStr)
    (acc : List ChildNode) (entry : JStr) : List ChildNode :=
  if jsStartsWith entry ['.'] then acc
  else
    match fs.stat (joinPath dirPath entry) with
    | none => acc
    | some cs =>
        if cs.isFile then
          acc ++ [⟨entry, joinPath dirPath entry, cs.size, EntryType.file⟩]
        else if cs.isDirectory then
          acc ++ [⟨entry, joinPath dirPath entry,
                   dirSizeLookup m (joinPath dirPath entry), EntryType.directory⟩]
        else acc

def buildChildren (fs : FS) (m : SizeMap) (dirPath : JStr)
    (entries : List JStr) : List ChildNode :=
  entries.foldl (childStep fs m dirPath) []

/-- `children.reduce((sum, child) => sum + child.size, 0)`. -/
def sumChildren (children : List ChildNode) : Int :=
  children.foldl (fun sum child => sum + child.size) 0

/-- The defensive default node of the `catch` branch and of the
non-directory early return. -/
def zeroNode (dirPath : JStr) : DirNode :=
  ⟨baseNameOf dirPath, dirPath, 0, []⟩

/-- The listing half of `getDirectoryContents`, given the size mapping
already fetched: read the children and aggregate the node size as the sum
of the children's sizes. -/
def listDirectory (fs : FS) (m : SizeMap) (dirPath : JStr) : DirNode :=
  match fs.readdir dirPath with
  | none => zeroNode dirPath
  | some entries =>
      let children := buildChildren fs m dirPath entries
      ⟨baseNameOf dirPath, dirPath, sumChildren children, children⟩

/-- `getDirectoryContents` restricted to a known mapping `m`. -/
def getDirectoryContents (fs : FS) (m : SizeMap) (dirPath : JStr) : DirNode :=
  match fs.stat dirPath with
  | none => zeroNode dirPath
  | some stats =>
      if ¬ stats.isDirectory then zeroNode dirPath
      else listDirectory fs m dirPath

/-- The fallback test of `getAllDirectorySizes`: the caught error message is
checked for the substrings `'maxBuffer'`, `'stdout maxBuffer'`,
`'timed out'` and `'Invalid string length'`.  The rejection message
`'du command timed out after 10 minutes'` contains `'timed out'`; the
rejection `'du command failed with code N'` and spawn errors contain none
of the substrings. -/
def triggersFallback : ScanErr → Bool
  | ScanErr.timeout => true
  | ScanErr.processFailed _ => false
  | ScanErr.spawnFailed => false

/-- `getAllDirectorySizes(rootPath)`: serve a valid cached mapping, else run
the scan (`scan true` = `du -ak`), caching on success; on a failure that
signals excessive output volume, retry once without `-a` (`scan false`),
caching on success; any other outcome degrades to an empty mapping with no
cache write.  Returns the mapping and the updated cache. -/
def getAllDirectorySizes (now : Int) (c : DuCache) (rootPath : JStr)
    (scan : Bool → Except ScanErr SizeMap) : SizeMap × DuCache :=
  let vc := isDuCacheValid now c rootPath
  if vc.1 then
    (match cacheGet vc.2 rootPath with
     | some rec => rec.sizeMap
     | none => [], vc.2)
  else
    match scan true with
    | Except.ok m => (m, cacheSet vc.2 rootPath ⟨m, now⟩)
    | Except.error e =>
        if triggersFallback e then
          match scan false with
          | Except.ok m => (m, cacheSet vc.2 rootPath ⟨m, now⟩)
          | Except.error _ => ([], vc.2)
        else ([], vc.2)

/-- The full `getDirectoryContents`: stat the directory, pick the scan root
(the covering cached root if any, else the directory itself), fetch the
mapping through `getAllDirectorySizes`, and build one level of the tree. -/
def materialize (now : Int) (c : DuCache) (fs : FS)
    (scan : Bool → Except ScanErr SizeMap) (dirPath : JStr) :
    DirNode × DuCache :=
  match fs.stat dirPath with
  | none => (zeroNode dirPath, c)
  | some stats =>
      if ¬ stats.isDirectory then (zeroNode dirPath, c)
      else
        let duRootPath := (findCachedRoot now c dirPath).getD dirPath
        let mc := getAllDirectorySizes now c duRootPath scan
        (listDirectory fs mc.1 dirPath, mc.2)

/-! ## The `delete-file` IPC handler -/

/-- `const dangerousPaths = ['/', '/System', '/usr', '/bin', '/sbin',
'/etc', '/var', '/tmp']`. -/
def dangerousPaths : List JStr :=
  [jstr "/", jstr "/System", jstr "/usr", jstr "/bin", jstr "/sbin",
   jstr "/etc", jstr "/var", jstr "/tmp"]

/-- `dangerousPaths.some(d => normalizedPath === d ||
normalizedPath.startsWith(d + '/'))`. -/
def isDangerousPath (normalizedPath : JStr) : Bool :=
  dangerousPaths.any (fun d =>
    decide (normalizedPath = d) || jsStartsWith normalizedPath (d ++ ['/']))

inductive DeleteOutcome where
  | blocked
  | notFound
  | deletedFile
  | deletedDirectory
deriving DecidableEq, Repr

/-- The `delete-file` handler: `path.resolve` (identity on the absolute
canonical inputs modelled here), the deny-list check, the existence check,
then removal.  The boolean records whether a removal (`fs.rmdir` /
`fs.unlink`) was attempted. -/
def deleteFileHandler (fs : FS) (filePath : JStr) : DeleteOutcome × Bool :=
  let normalizedPath := filePath
  if isDangerousPath normalizedPath then (DeleteOutcome.blocked, false)
  else
    match fs.stat filePath with
    | none => (DeleteOutcome.notFound, false)
    | some st =>
        if st.isDirectory then (DeleteOutcome.deletedDirectory, true)
        else (DeleteOutcome.deletedFile, true)

/-! ## Timeout machine for `executeDuWithProgress`

The promise body reacts to `stdout` `data` events, the process `close`
event, and the 600000 ms (`setTimeout`) timer firing.  A promise settles
once: later settlement attempts are no-ops (`Option.getD` keeps the first
value).  The two `close` listeners are folded into one step: settle, then
`clearTimeout`. -/

def DU_TIMEOUT_MS : Nat := 600000

inductive DuEvent where
  | data (chunk : JStr)
  | close (code : Int)
  | timeoutFire
deriving DecidableEq, Repr

structure RunState where
  st : DuState
  settled : Option (Except ScanErr SizeMap)
  timerActive : Bool
  killed : Bool

def duRunInit (rootPath : JStr) : RunState :=
  ⟨duInitState rootPath, none, true, false⟩

def duStep (r : RunState) : DuEvent → RunState
  | DuEvent.data chunk => { r with st := duOnData r.st chunk }
  | DuEvent.close code =>
      let st' := flushBuffer r.st
      let res : Except ScanErr SizeMap :=
        if code = 0 then Except.ok st'.sizeMap
        else Except.error (ScanErr.processFailed code)
      { r with st := st', settled := some (r.settled.getD res),
               timerActive := false }
  | DuEvent.timeoutFire =>
      if r.timerActive then
        { r with killed := true,
                 settled := some (r.settled.getD (Except.error ScanErr.timeout)),
                 timerActive := false }
      else r

def duRun (rootPath : JStr) (events : List DuEvent) : RunState :=
  events.foldl duStep (duRunInit rootPath)

lemma duRun_data_prefix (chunks : List JStr) :
    ∀ st : DuState,
      (chunks.map DuEvent.data).foldl duStep ⟨st, none, true, false⟩
        = ⟨chunks.foldl duOnData st, none, true, false⟩ := by
  induction chunks with
  | nil => intro st; rfl
  | cons ch chunks ih =>
      intro st
      simpa [duStep] using ih (duOnData st ch)

lemma duRun_settled_stable (events : List DuEvent) :
    ∀ (st : DuState) (x : Except ScanErr SizeMap),
      ∃ st2, events.foldl duStep ⟨st, some x, false, false⟩
        = ⟨st2, some x, false, false⟩ := by
  induction events with
  | nil => intro st x; exact ⟨st, rfl⟩
  | cons e events ih =>
      intro st x
      cases e with
      | data chunk => exact ih (duOnData st chunk) x
      | close code =>
          obtain ⟨st2, h⟩ := ih (flushBuffer st) x
          exact ⟨st2, by simpa [duStep] using h⟩
      | timeoutFire => exact ih st x

/-- C8: if the timer fires before any `close` event (the process has not
exited within the 600-second deadline), the process is killed and the
promise rejects with the timeout error; if the process closes normally
(code 0) first, the timer is cleared, so a timer event arriving later is a
no-op — the run stays resolved with the mapping and the process is never
killed. -/
theorem duTimeout_spec :
    (∀ (rootPath : JStr) (chunks : List JStr),
       (duRun rootPath (chunks.map DuEvent.data ++ [DuEvent.timeoutFire])).killed
           = true ∧
         (duRun rootPath (chunks.map DuEvent.data ++ [DuEvent.timeoutFire])).settled
           = some (Except.error ScanErr.timeout)) ∧
    (∀ (rootPath : JStr) (chunks : List JStr) (rest : List DuEvent),
       (duRun rootPath
           (chunks.map DuEvent.data ++ DuEvent.close 0 :: rest)).timerActive
           = false ∧
         (duRun rootPath
             (chunks.map DuEvent.data ++ DuEvent.close 0 :: rest)).killed
           = false ∧
         ∃ m, (duRun rootPath
             (chunks.map DuEvent.data ++ DuEvent.close 0 :: rest)).settled
           = some (Except.ok m)) := by
  constructor
  · intro rootPath chunks
    unfold duRun duRunInit
    rw [List.foldl_append, duRun_data_prefix]
    simp [duStep]
  · intro rootPath chunks rest
    unfold duRun duRunInit
    rw [List.foldl_append, duRun_data_prefix, List.foldl_cons]
    have hclose :
        duStep ⟨chunks.foldl duOnData (duInitState rootPath), none, true, false⟩
            (DuEvent.close 0)
          = ⟨flushBuffer (chunks.foldl duOnData (duInitState rootPath)),
             some (Except.ok
               (flushBuffer (chunks.foldl duOnData (duInitState rootPath))).sizeMap),
             false, false⟩ := by
      simp [duStep]
    rw [hclose]
    obtain ⟨st2, h⟩ := duRun_settled_stable rest
      (flushBuffer (chunks.foldl duOnData (duInitState rootPath)))
      (Except.ok
        (flushBuffer (chunks.foldl duOnData (duInitState rootPath))).sizeMap)
    rw [h]
    exact ⟨rfl, rfl,
      ⟨(flushBuffer (chunks.foldl duOnData (duInitState rootPath))).sizeMap, rfl⟩⟩

/-- What `getDirectoryContents` guarantees about each produced child: its
name does not start with a dot, its path is the join of the directory and
its name, its `stat` succeeded, and a file child carries the stat size
while a directory child carries the `sizeMap.get(fullPath) || 0` lookup. -/
def ChildOK (fs : FS) (m : SizeMap) (dirPath : JStr) (ch : ChildNode) : Prop :=
  jsStartsWith ch.name ['.'] = false ∧
  ch.path = joinPath dirPath ch.name ∧
  ∃ cs, fs.stat ch.path = some cs ∧
    ((cs.isFile = true ∧ ch.type = EntryType.file ∧ ch.size = cs.size) ∨
     (cs.isFile = false ∧ cs.isDirectory = true ∧
      ch.type = EntryType.directory ∧ ch.size = dirSizeLookup m ch.path))

lemma childStep_pres {fs : FS} {m : SizeMap} {d : JStr}
    {acc : List ChildNode} {entry : JStr}
    (h : ∀ ch ∈ acc, ChildOK fs m d ch) :
    ∀ ch ∈ childStep fs m d acc entry, ChildOK fs m d ch := by
  intro ch hch
  unfold childStep at hch
  by_cases hdot : jsStartsWith entry ['.'] = true
  · rw [if_pos hdot] at hch
    exact h ch hch
  · rw [if_neg hdot] at hch
    cases hstat : fs.stat (joinPath d entry) with
    | none =>
        rw [hstat] at hch
        exact h ch hch
    | some cs =>
        rw [hstat] at hch
        dsimp only at hch
        by_cases hf : cs.isFile = true
        · rw [if_pos hf] at hch
          rcases List.mem_append.mp hch with hm | hm
          · exact h ch hm
          · obtain rfl : ch = ⟨entry, joinPath d entry, cs.size, EntryType.file⟩ :=
              by simpa using hm
            exact ⟨by simpa using hdot, rfl, cs, hstat, Or.inl ⟨hf, rfl, rfl⟩⟩
        · rw [if_neg hf] at hch
          by_cases hd2 : cs.isDirectory = true
          · rw [if_pos hd2] at hch
            rcases List.mem_append.mp hch with hm | hm
            · exact h ch hm
            · obtain rfl : ch = ⟨entry, joinPath d entry,
                  dirSizeLookup m (joinPath d entry), EntryType.directory⟩ :=
                by simpa using hm
              exact ⟨by simpa using hdot, rfl, cs, hstat,
                Or.inr ⟨by simpa using hf, hd2, rfl, rfl⟩⟩
          · rw [if_neg hd2] at hch
            exact h ch hch

lemma foldl_childStep_pres {fs : FS} {m : SizeMap} {d : JStr} :
    ∀ (entries : List JStr) (acc : List ChildNode),
      (∀ ch ∈ acc, ChildOK fs m d ch) →
      ∀ ch ∈ entries.foldl (childStep fs m d) acc, ChildOK fs m d ch := by
  intro entries
  induction entries with
  | nil => intro acc h; simpa using h
  | cons e rest ih =>
      intro acc h
      exact ih (childStep fs m d acc e) (childStep_pres h)

lemma buildChildren_mem {fs : FS} {m : SizeMap} {d : JStr}
    {entries : List JStr} :
    ∀ ch ∈ buildChildren fs m d entries, ChildOK fs m d ch :=
  foldl_childStep_pres entries [] (by intro ch hch; cases hch)

lemma childStep_mono {fs : FS} {m : SizeMap} {d : JStr}
    {acc : List ChildNode} {entry : JStr} {ch : ChildNode}
    (h : ch ∈ acc) : ch ∈ childStep fs m d acc entry := by
  unfold childStep
  by_cases hdot : jsStartsWith entry ['.'] = true
  · rw [if_pos hdot]; exact h
  · rw [if_neg hdot]
    cases hstat : fs.stat (joinPath d entry) with
    | none => exact h
    | some cs =>
        dsimp only
        by_cases hf : cs.isFile = true
        · rw [if_pos hf]; exact List.mem_append_left _ h
        · rw [if_neg hf]
          by_cases hd2 : cs.isDirectory = true
          · rw [if_pos hd2]; exact List.mem_append_left _ h
          · rw [if_neg hd2]; exact h

lemma foldl_childStep_mono {fs : FS} {m : SizeMap} {d : JStr} :
    ∀ (entries : List JStr) (acc : List ChildNode) (ch : ChildNode),
      ch ∈ acc → ch ∈ entries.foldl (childStep fs m d) acc := by
  intro entries
  induction entries with
  | nil => intro acc ch h; simpa using h
  | cons e rest ih =>
      intro acc ch h
      exact ih (childStep fs m d acc e) ch (childStep_mono h)

lemma buildChildren_complete_aux {fs : FS} {m : SizeMap} {d : JStr} :
    ∀ (entries : List JStr) (acc : List ChildNode) (name : JStr) (cs : Stats),
      name ∈ entries → jsStartsWith name ['.'] = false →
      fs.stat (joinPath d name) = some cs →
      (cs.isFile = true →
        (⟨name, joinPath d name, cs.size, EntryType.file⟩ : ChildNode)
          ∈ entries.foldl (childStep fs m d) acc) ∧
      (cs.isFile = false → cs.isDirectory = true →
        (⟨name, joinPath d name, dirSizeLookup m (joinPath d name),
          EntryType.directory⟩ : ChildNode)
          ∈ entries.foldl (childStep fs m d) acc) := by
  intro entries
  induction entries with
  | nil => intro acc name cs hmem; cases hmem
  | cons e rest ih =>
      intro acc name cs hmem hdot hstat
      rcases List.mem_cons.mp hmem with rfl | hmem'
      · have hstep : childStep fs m d acc name
            = (if cs.isFile then
                acc ++ [⟨name, joinPath d name, cs.size, EntryType.file⟩]
              else if cs.isDirectory then
                acc ++ [⟨name, joinPath d name,
                        dirSizeLookup m (joinPath d name), EntryType.directory⟩]
              else acc) := by
          unfold childStep
          rw [if_neg (by simp [hdot]), hstat]
        constructor
        · intro hf
          refine foldl_childStep_mono rest _ _ ?_
          rw [hstep, if_pos hf]
          exact List.mem_append_right _ (by simp)
        · intro hf hd2
          refine foldl_childStep_mono rest _ _ ?_
          rw [hstep, if_neg (by simp [hf]), if_pos hd2]
          exact List.mem_append_right _ (by simp)
      · exact ih (childStep fs m d acc e) name cs hmem' hdot hstat

/-- C7: for a directory with a mapping available, the materialized node
lists the immediate children excluding dot-entries (every produced child
satisfies `ChildOK`: file children carry their stat size, directory
children the mapping lookup defaulting to 0), every non-dot entry whose
stat succeeds is listed, and the node's own size is the sum of the
children's sizes — not the mapping's total for the directory itself. -/
theorem getDirectoryContents_spec :
    ∀ (fs : FS) (m : SizeMap) (dirPath : JStr) (stats : Stats)
      (entries : List JStr),
      fs.stat dirPath = some stats →
      stats.isDirectory = true →
      fs.readdir dirPath = some entries →
      (getDirectoryContents fs m dirPath).size
          = sumChildren (getDirectoryContents fs m dirPath).children ∧
      (∀ ch ∈ (getDirectoryContents fs m dirPath).children,
         ChildOK fs m dirPath ch) ∧
      (∀ (name : JStr) (cs : Stats), name ∈ entries →
         jsStartsWith name ['.'] = false →
         fs.stat (joinPath dirPath name) = some cs →
         (cs.isFile = true →
            (⟨name, joinPath dirPath name, cs.size, EntryType.file⟩ : ChildNode)
              ∈ (getDirectoryContents fs m dirPath).children) ∧
         (cs.isFile = false → cs.isDirectory = true →
            (⟨name, joinPath dirPath name,
              dirSizeLookup m (joinPath dirPath name),
              EntryType.directory⟩ : ChildNode)
              ∈ (getDirectoryContents fs m dirPath).children)) := by
  intro fs m dirPath stats entries hstat hdir hread
  have hnode : getDirectoryContents fs m dirPath
      = ⟨baseNameOf dirPath, dirPath,
         sumChildren (buildChildren fs m dirPath entries),
         buildChildren fs m dirPath entries⟩ := by
    unfold getDirectoryContents listDirectory
    rw [hstat]
    dsimp only
    rw [if_neg (not_not_intro hdir), hread]
  rw [hnode]
  refine ⟨rfl, ?_, ?_⟩
  · intro ch hch
    exact buildChildren_mem ch hch
  · intro name cs hn hdot hstat2
    exact buildChildren_complete_aux entries [] name cs hn hdot hstat2

/-- The `/tmp/proj` scenario filesystem: file `f1` of 100 bytes and
subdirectory `sub`. -/
def exampleFS : FS where
  stat := fun p =>
    if p = jstr "/tmp/proj" then some ⟨false, true, 0⟩
    else if p = jstr "/tmp/proj/f1" then some ⟨true, false, 100⟩
    else if p = jstr "/tmp/proj/sub" then some ⟨false, true, 0⟩
    else none
  readdir := fun p =>
    if p = jstr "/tmp/proj" then some [jstr "f1", jstr "sub"] else none

/-- The scan mapping of the scenario: `sub` reported as 2048 KB; the
mapping's own total for `/tmp/proj` is deliberately different from the
children's sum, to show it is ignored. -/
def exampleMap : SizeMap :=
  [(jstr "/tmp/proj", some 4000000), (jstr "/tmp/proj/sub", some 2097152)]

/-- Witness for C7: `/tmp/proj` materializes to a node of size
`100 + 2097152 = 2097252` with children `f1` (file, 100) and `sub`
(directory, 2097152), and the node size is the children's sum. -/
theorem getDirectoryContents_spec_witness :
    getDirectoryContents exampleFS exampleMap (jstr "/tmp/proj")
        = ⟨jstr "proj", jstr "/tmp/proj", 2097252,
           [⟨jstr "f1", jstr "/tmp/proj/f1", 100, EntryType.file⟩,
            ⟨jstr "sub", jstr "/tmp/proj/sub", 2097152, EntryType.directory⟩]⟩ ∧
      (getDirectoryContents exampleFS exampleMap (jstr "/tmp/proj")).size
        = sumChildren
            (getDirectoryContents exampleFS exampleMap (jstr "/tmp/proj")).children :=
  ⟨by decide,
   (getDirectoryContents_spec exampleFS exampleMap (jstr "/tmp/proj")
      ⟨false, true, 0⟩ [jstr "f1", jstr "sub"]
      (by decide) (by decide) (by decide)).1⟩

/-- C6: a non-zero exit code `c` rejects the scan with the process-failed
error carrying `c`; a materialization whose scan fails that way does not
propagate the error: it degrades to an empty mapping, stores nothing in the
cache, and returns a tree in which every directory child's size defaults
to 0. -/
theorem scanFailure_degrades :
    (∀ (rootPath : JStr) (st : DuState) (code : Int),
       code ≠ 0 →
       duOnClose rootPath st code
         = ([], Except.error (ScanErr.processFailed code))) ∧
    (∀ (now : Int) (fs : FS) (scan : Bool → Except ScanErr SizeMap)
       (dirPath : JStr) (code : Int) (stats : Stats) (entries : List JStr),
       scan true = Except.error (ScanErr.processFailed code) →
       fs.stat dirPath = some stats →
       stats.isDirectory = true →
       fs.readdir dirPath = some entries →
       (materialize now [] fs scan dirPath).2 = [] ∧
       ∀ ch ∈ (materialize now [] fs scan dirPath).1.children,
         ch.type = EntryType.directory → ch.size = 0) := by
  constructor
  · intro rootPath st code hcode
    unfold duOnClose
    rw [if_neg hcode]
  · intro now fs scan dirPath code stats entries hscan hstat hdir hread
    have h1 : isDuCacheValid now [] dirPath = (false, []) := rfl
    have hga : getAllDirectorySizes now [] dirPath scan = ([], []) := by
      unfold getAllDirectorySizes
      rw [h1]
      dsimp only
      rw [hscan]
      rfl
    have hmat : materialize now [] fs scan dirPath
        = (listDirectory fs [] dirPath, []) := by
      unfold materialize
      rw [hstat]
      dsimp only
      rw [if_neg (not_not_intro hdir)]
      rw [show (findCachedRoot now [] dirPath).getD dirPath = dirPath from rfl]
      rw [hga]
    have hlist : listDirectory fs [] dirPath
        = ⟨baseNameOf dirPath, dirPath,
           sumChildren (buildChildren fs [] dirPath entries),
           buildChildren fs [] dirPath entries⟩ := by
      unfold listDirectory
      rw [hread]
    constructor
    · rw [hmat]
    · rw [hmat, hlist]
      intro ch hch htype
      obtain ⟨-, -, cs, -, hcase⟩ := buildChildren_mem ch hch
      rcases hcase with ⟨-, htf, -⟩ | ⟨-, -, -, hsize⟩
      · rw [htype] at htf
        cases htf
      · rw [hsize]
        rfl

/-- A scan that always fails with `ProcessFailed(2)`. -/
def failingScan : Bool → Except ScanErr SizeMap :=
  fun _ => Except.error (ScanErr.processFailed 2)

/-- Witness for C6: with the scan failing with exit code 2, `/tmp/proj`
materializes without an error to a node whose directory child `sub` has
size 0 (file children keep their stat size); nothing is cached. -/
theorem scanFailure_degrades_witness :
    (materialize 0 [] exampleFS failingScan (jstr "/tmp/proj")).1
        = ⟨jstr "proj", jstr "/tmp/proj", 100,
           [⟨jstr "f1", jstr "/tmp/proj/f1", 100, EntryType.file⟩,
            ⟨jstr "sub", jstr "/tmp/proj/sub", 0, EntryType.directory⟩]⟩ ∧
      (materialize 0 [] exampleFS failingScan (jstr "/tmp/proj")).2 = [] ∧
      ∀ ch ∈ (materialize 0 [] exampleFS failingScan (jstr "/tmp/proj")).1.children,
        ch.type = EntryType.directory → ch.size = 0 :=
  ⟨by decide,
   (scanFailure_degrades.2 0 exampleFS failingScan (jstr "/tmp/proj") 2
      ⟨false, true, 0⟩ [jstr "f1", jstr "sub"]
      rfl (by decide) (by decide) (by decide)).1,
   (scanFailure_degrades.2 0 exampleFS failingScan (jstr "/tmp/proj") 2
      ⟨false, true, 0⟩ [jstr "f1", jstr "sub"]
      rfl (by decide) (by decide) (by decide)).2⟩

/-- C9: a path equal to a deny-listed system path, or lying beneath one
(deciding "beneath" against the deny-list entry followed by the path
separator), is hard-blocked by the `delete-file` handler: it returns the
explicit error outcome and attempts no removal. -/
theorem deleteFile_blocks_dangerous :
    ∀ (fs : FS) (filePath : JStr),
      isDangerousPath filePath = true →
      deleteFileHandler fs filePath = (DeleteOutcome.blocked, false) := by
  intro fs p h
  unfold deleteFileHandler
  rw [if_pos h]

/-- A filesystem oracle on which every `stat` and `readdir` throws. -/
def emptyFS : FS := ⟨fun _ => none, fun _ => none⟩

/-- Witness for C9: deleting `/usr/local` (beneath deny-listed `/usr`) is
blocked with no removal attempted. -/
theorem deleteFile_blocks_dangerous_witness :
    deleteFileHandler emptyFS (jstr "/usr/local")
      = (DeleteOutcome.blocked, false) :=
  deleteFile_blocks_dangerous emptyFS (jstr "/usr/local") (by decide)

lemma isDuCacheValid_false_props {now : Int} {c : DuCache} {root : JStr}
    (h : (isDuCacheValid now c root).1 = false) :
    cacheGet (isDuCacheValid now c root).2 root = none ∧
    (∀ x ∈ (isDuCacheValid now c root).2, x ∈ c) ∧
    (∀ x ∈ c, x.1 ≠ root → x ∈ (isDuCacheValid now c root).2) := by
  unfold isDuCacheValid at h ⊢
  cases hg : cacheGet c root with
  | none =>
      exact ⟨hg, fun x hx => hx, fun x hx _ => hx⟩
  | some rec =>
      rw [hg] at h
      dsimp only at h ⊢
      by_cases hv : now - rec.timestamp < CACHE_EXPIRY
      · rw [if_pos hv] at h
        exact Bool.noConfusion h
      · rw [if_neg hv]
        refine ⟨cacheGet_delete_self c root, ?_, ?_⟩
        · intro x hx
          exact List.mem_of_mem_filter hx
        · intro x hx hne
          exact List.mem_filter.mpr ⟨hx, by simpa using hne⟩

lemma isDuCacheValid_of_get_none {now : Int} {c : DuCache} {root : JStr}
    (h : cacheGet c root = none) : isDuCacheValid now c root = (false, c) := by
  unfold isDuCacheValid
  rw [h]

/-- C10 counterexample: the claim says the cache state is unchanged when the
scan fails, but when the failing root holds an expired record, the validity
touch evicts it before the scan runs, so the cache does change. -/
theorem getAllDirectorySizes_cacheUnchanged_counterexample :
    (getAllDirectorySizes 3600000 [(jstr "/r", ⟨[(jstr "/r", some 0)], 0⟩)]
        (jstr "/r") failingScan).2
      ≠ [(jstr "/r", ⟨[(jstr "/r", some 0)], 0⟩)] := by decide

/-- C10 amended: when the cache has no valid entry for the root and the scan
fails without triggering the directories-only fallback (or the fallback also
fails), `getAllDirectorySizes` returns an empty mapping and stores no cache
entry for the root — entries for other roots survive, any expired entry for
this root is evicted, and a subsequent validity check for the root still
fails, forcing a fresh scan instead of serving a cached empty mapping. -/
theorem getAllDirectorySizes_error_no_cache :
    ∀ (now : Int) (c : DuCache) (rootPath : JStr)
      (scan : Bool → Except ScanErr SizeMap) (e : ScanErr),
      (isDuCacheValid now c rootPath).1 = false →
      scan true = Except.error e →
      (triggersFallback e = true → ∃ e2, scan false = Except.error e2) →
      (getAllDirectorySizes now c rootPath scan).1 = [] ∧
      cacheGet (getAllDirectorySizes now c rootPath scan).2 rootPath = none ∧
      (∀ x ∈ (getAllDirectorySizes now c rootPath scan).2, x ∈ c) ∧
      (∀ x ∈ c, x.1 ≠ rootPath →
        x ∈ (getAllDirectorySizes now c rootPath scan).2) ∧
      isDuCacheValid now (getAllDirectorySizes now c rootPath scan).2 rootPath
        = (false, (getAllDirectorySizes now c rootPath scan).2) := by
  intro now c rootPath scan e hvalid hscan hfb
  obtain ⟨hget, hsub, hkeep⟩ := isDuCacheValid_false_props hvalid
  have hga : getAllDirectorySizes now c rootPath scan
      = ([], (isDuCacheValid now c rootPath).2) := by
    unfold getAllDirectorySizes
    dsimp only
    rw [hvalid, hscan]
    dsimp only
    cases htf : triggersFallback e with
    | false => rfl
    | true =>
        obtain ⟨e2, hs2⟩ := hfb htf
        rw [hs2]
        rfl
  rw [hga]
  exact ⟨rfl, hget, hsub, hkeep, isDuCacheValid_of_get_none hget⟩

/-- Witness for the amended C10: on an empty cache, a scan failing with
`ProcessFailed(2)` yields an empty mapping and leaves the cache without an
entry for the root, so the next validity check still fails. -/
theorem getAllDirectorySizes_error_no_cache_witness :
    (getAllDirectorySizes 0 [] (jstr "/r") failingScan).1 = [] ∧
      cacheGet (getAllDirectorySizes 0 [] (jstr "/r") failingScan).2
        (jstr "/r") = none ∧
      (∀ x ∈ (getAllDirectorySizes 0 [] (jstr "/r") failingScan).2,
        x ∈ ([] : DuCache)) ∧
      (∀ x ∈ ([] : DuCache), x.1 ≠ jstr "/r" →
        x ∈ (getAllDirectorySizes 0 [] (jstr "/r") failingScan).2) ∧
      isDuCacheValid 0 (getAllDirectorySizes 0 [] (jstr "/r") failingScan).2
          (jstr "/r")
        = (false, (getAllDirectorySizes 0 [] (jstr "/r") failingScan).2) :=
  getAllDirectorySizes_error_no_cache 0 [] (jstr "/r") failingScan
    (ScanErr.processFailed 2) (by decide) rfl
    (fun h => absurd h (by decide))
